import Mathlib

/-!
Shallow embedding of `src/app/vector_store.py` (class `FAISSVectorStore`)
together with the parts of the `faiss` / `numpy` API surface the class uses
(`faiss.IndexFlatL2`, `faiss.normalize_L2`, `index.add`, `index.search`,
`faiss.write_index` / `faiss.read_index`, `json.dump` / `json.load`).

Modelling conventions:

* `float32` scalars are embedded into an arbitrary `LinearOrderedField α`
  (instantiated at `ℝ` for the claims); the square root used by
  `faiss.normalize_L2` is passed explicitly as `sq : α → α` and is
  `Real.sqrt` at the `ℝ` instantiation.  `astype('float32')` is the
  identity in this model.
* A numpy array argument (1-D or 2-D) is `NpArr α`; numpy 2-D arrays are
  rectangular, so faiss's `assert d == self.d` on `x.shape[1]` is modelled
  as the per-row length check, which agrees with it on every array the
  store ever passes.
* A Python `dict` keyed by `int` is an insertion-ordered association list
  `List (Nat × MetaEntry)`; `json.dump` writes keys as decimal strings and
  `_load_metadata` parses them back with `int(k)`, which is exact for
  decimal representations of naturals, so on-disk metadata keys are kept
  as `Nat`.
* The filesystem is an explicit `Disk α` value threaded through the
  operations; a metadata file that exists but is not valid JSON is
  `MetaFile.malformed` (on which `json.load` raises).
* Python exceptions escaping a method are `Except.error`: faiss's
  dimension `assert` is `PyError.assertionError`, `json.load` failure is
  `PyError.jsonDecodeError`.
-/

namespace VectorStore

/-- Errors (Python exceptions) that can escape the store's methods. -/
inductive PyError where
  | assertionError
  | jsonDecodeError
deriving DecidableEq, Repr

/-- A numpy array argument: 1-D of shape `(n,)` or 2-D given as its rows. -/
inductive NpArr (α : Type) where
  | one (v : List α)
  | two (rows : List (List α))
deriving Repr

/-- Lines 52-53 / 88-89: `if len(x.shape) == 1: x = x.reshape(1, -1)`. -/
def atleast2d {α : Type} : NpArr α → List (List α)
  | .one v => [v]
  | .two rows => rows

/-- Squared Euclidean norm of a row, `fvec_norm_L2sqr` in faiss. -/
def normSq {α : Type} [LinearOrderedField α] (v : List α) : α :=
  (v.map fun x => x * x).sum

/-- One row of faiss's `fvec_renorm_L2`: if the squared norm is positive the
row is scaled by `1 / sqrt (norm²)`, otherwise it is left untouched. -/
def renormRow {α : Type} [LinearOrderedField α] (sq : α → α) (v : List α) : List α :=
  if 0 < normSq v then v.map fun x => x / sq (normSq v) else v

/-- `faiss.normalize_L2(x)`: renormalize every row (in place in Python). -/
def normalize_L2 {α : Type} [LinearOrderedField α] (sq : α → α)
    (rows : List (List α)) : List (List α) :=
  rows.map (renormRow sq)

/-- The in-memory `faiss.IndexFlatL2`: its dimension `d` and the stored
rows `xb` in insertion order (`ntotal = xb.length`). -/
structure FaissIndex (α : Type) where
  d : Nat
  xb : List (List α)
deriving Repr

/-- `index.ntotal`. -/
def FaissIndex.ntotal {α : Type} (idx : FaissIndex α) : Nat := idx.xb.length

/-- `index.add(x)`: the Python wrapper asserts `x.shape[1] == self.d`
(per-row length for a rectangular array) and appends the rows. -/
def FaissIndex.add {α : Type} [LinearOrderedField α] (idx : FaissIndex α)
    (x : List (List α)) : Except PyError (FaissIndex α) :=
  if ∀ r ∈ x, r.length = idx.d then
    .ok ⟨idx.d, idx.xb ++ x⟩
  else
    .error .assertionError

/-- Squared Euclidean distance between two rows of equal length. -/
def sqDist {α : Type} [LinearOrderedField α] (u v : List α) : α :=
  ((u.zip v).map fun p => (p.1 - p.2) * (p.1 - p.2)).sum

/-- The distance table an `IndexFlatL2` search scans: the pair
`(squared distance to the query, stored id)` for each row, ids starting
at `i`. -/
def distTable {α : Type} [LinearOrderedField α] (q : List α) :
    List (List α) → Nat → List (α × Nat)
  | [], _ => []
  | r :: rs, i => (sqDist q r, i) :: distTable q rs (i + 1)

/-- Result order of the flat index: ascending distance, ties broken by
ascending id (the deterministic order of the exact scan). -/
def distLe {α : Type} [LinearOrderedField α] (p q : α × Nat) : Prop :=
  p.1 < q.1 ∨ (p.1 = q.1 ∧ p.2 ≤ q.2)

instance {α : Type} [LinearOrderedField α] : DecidableRel (distLe (α := α)) :=
  fun p q => by unfold distLe; infer_instance

instance {α : Type} [LinearOrderedField α] : IsTotal (α × Nat) distLe where
  total p q := by
    rcases lt_trichotomy p.1 q.1 with h | h | h
    · exact Or.inl (Or.inl h)
    · rcases Nat.le_total p.2 q.2 with h2 | h2
      · exact Or.inl (Or.inr ⟨h, h2⟩)
      · exact Or.inr (Or.inr ⟨h.symm, h2⟩)
    · exact Or.inr (Or.inl h)

instance {α : Type} [LinearOrderedField α] : IsTrans (α × Nat) distLe where
  trans p q r hpq hqr := by
    rcases hpq with h1 | ⟨e1, l1⟩
    · rcases hqr with h2 | ⟨e2, _⟩
      · exact Or.inl (h1.trans h2)
      · exact Or.inl (e2 ▸ h1)
    · rcases hqr with h2 | ⟨e2, l2⟩
      · exact Or.inl (e1 ▸ h2)
      · exact Or.inr ⟨e1.trans e2, l1.trans l2⟩

/-- `index.search(x, k)`: assert the query dimension, rank all stored rows
by `(distance, id)` and return the first `k` pairs `(distance, id)`.
The caller (`FAISSVectorStore.search`) always clamps `k ≤ ntotal` first,
so the `-1` padding faiss emits for `k > ntotal` never arises. -/
def FaissIndex.search {α : Type} [LinearOrderedField α] (idx : FaissIndex α)
    (q : List α) (k : Nat) : Except PyError (List (α × Nat)) :=
  if q.length = idx.d then
    .ok ((List.insertionSort distLe (distTable q idx.xb 0)).take k)
  else
    .error .assertionError

/-- The value stored under an id in `self.metadata` (lines 63-67). -/
structure MetaEntry where
  text : String
  audio_path : String
  chunks : List String
deriving DecidableEq, Repr

/-- Python `dict` assignment `m[k] = v`: overwrite in place if the key is
present, else append. -/
def dictInsert (m : List (Nat × MetaEntry)) (k : Nat) (v : MetaEntry) :
    List (Nat × MetaEntry) :=
  if ∃ p ∈ m, p.1 = k then
    m.map fun p => if p.1 = k then (k, v) else p
  else
    m ++ [(k, v)]

/-- Python `m.get(k, default)` on the metadata dict. -/
def dictGet (m : List (Nat × MetaEntry)) (k : Nat) : Option MetaEntry :=
  (m.find? fun p => p.1 = k).map fun p => p.2

/-- The parsed content of `metadata.json` (lines 126-129). -/
structure MetaDoc where
  next_id : Nat
  metadata : List (Nat × MetaEntry)
deriving DecidableEq, Repr

/-- A metadata file on disk: either valid JSON holding a `MetaDoc`, or
content on which `json.load` raises. -/
inductive MetaFile where
  | valid (doc : MetaDoc)
  | malformed
deriving DecidableEq, Repr

/-- The two files the store touches (`index_path` and `metadata_path`);
`none` means the file does not exist. -/
structure Disk (α : Type) where
  indexFile : Option (FaissIndex α)
  metaFile : Option MetaFile
deriving Repr

/-- The in-memory state of a `FAISSVectorStore`. -/
structure Store (α : Type) where
  dimension : Nat
  index : FaissIndex α
  metadata : List (Nat × MetaEntry)
  next_id : Nat
deriving Repr

/-- `FAISSVectorStore.__init__` (lines 8-36): if the index file exists it
is read back verbatim and `_load_metadata` runs (a missing metadata file
resets `metadata = {}` and `next_id = 0`; an unparseable one raises); if
it does not exist a fresh empty `IndexFlatL2(dimension)` is created and
`_save_metadata` writes the (empty) metadata document.  No consistency or
dimension check of any kind is performed on loaded state. -/
def initStore {α : Type} [LinearOrderedField α] (dimension : Nat) (disk : Disk α) :
    Except PyError (Store α × Disk α) :=
  match disk.indexFile with
  | some idx =>
      match disk.metaFile with
      | some (.valid doc) => .ok (⟨dimension, idx, doc.metadata, doc.next_id⟩, disk)
      | some .malformed => .error .jsonDecodeError
      | none => .ok (⟨dimension, idx, [], 0⟩, disk)
  | none =>
      .ok (⟨dimension, ⟨dimension, []⟩, [], 0⟩,
           { disk with metaFile := some (.valid ⟨0, []⟩) })

/-- `_save_index` followed by `_save_metadata` (lines 119-129): write the
current index and the metadata document to their files. -/
def saveAll {α : Type} (s : Store α) (disk : Disk α) : Disk α :=
  { disk with
      indexFile := some s.index
      metaFile := some (.valid ⟨s.next_id, s.metadata⟩) }

/-- `FAISSVectorStore.add` (lines 38-74): reshape a 1-D embedding to one
row, L2-normalize all rows, `index.add` them (faiss asserts the
dimension), record metadata under the single id `next_id`, increment
`next_id`, persist both files and return the id. -/
def Store.add {α : Type} [LinearOrderedField α] (sq : α → α) (s : Store α)
    (disk : Disk α) (embedding : NpArr α) (text audio_path : String)
    (chunks : Option (List String)) :
    Except PyError (Store α × Disk α × Nat) :=
  let e2 := normalize_L2 sq (atleast2d embedding)
  match s.index.add e2 with
  | .error e => .error e
  | .ok idx =>
      let vector_id := s.next_id
      let md := dictInsert s.metadata vector_id ⟨text, audio_path, chunks.getD []⟩
      let s' : Store α := ⟨s.dimension, idx, md, s.next_id + 1⟩
      .ok (s', saveAll s' disk, vector_id)

/-- One search result dict (lines 108-115). -/
structure SearchResult (α : Type) where
  id : Nat
  distance : α
  similarity_score : α
  text : String
  audio_path : String
  chunks : List String
deriving Repr

/-- `FAISSVectorStore.search` (lines 76-117): reshape and normalize the
query, clamp `k` to `ntotal`, return `[]` if the clamp is `0` (before any
faiss call, hence before any dimension check), otherwise run the faiss
search on the first query row and join each `(distance, id)` pair with
the metadata record (missing fields default to empty).  The `idx == -1`
skip in the Python loop never fires because `k ≤ ntotal`. -/
def Store.search {α : Type} [LinearOrderedField α] (sq : α → α) (s : Store α)
    (query : NpArr α) (k : Nat) : Except PyError (List (SearchResult α)) :=
  let q2 := normalize_L2 sq (atleast2d query)
  let k' := min k s.index.ntotal
  if k' = 0 then .ok []
  else
    match q2 with
    | [] => .error .assertionError
    | q :: _ =>
        match s.index.search q k' with
        | .error e => .error e
        | .ok pairs =>
            .ok (pairs.map fun p =>
              let md := (dictGet s.metadata p.2).getD ⟨"", "", []⟩
              ⟨p.2, p.1, 1 / (1 + p.1), md.text, md.audio_path, md.chunks⟩)

/-- The content of the caller's embedding array after `add` or `search`
returns: `reshape(1, -1)` on a contiguous 1-D array yields a view, and
`faiss.normalize_L2` renormalizes through that view in place, so the
caller's buffer holds the normalized rows (the later `astype('float32')`
copies and does not write back). -/
def callerBufferAfter {α : Type} [LinearOrderedField α] (sq : α → α) :
    NpArr α → NpArr α
  | .one v => .one (renormRow sq v)
  | .two rows => .two (normalize_L2 sq rows)

/-- Ids of vectors stored in the faiss index: positions `0 … ntotal-1`. -/
def indexIds {α : Type} (s : Store α) : List Nat := List.range s.index.ntotal

/-- Ids present in the metadata mapping. -/
def metaIds {α : Type} (s : Store α) : List Nat := s.metadata.map fun p => p.1

/-- Calling `add` repeatedly, one 1-D vector at a time (empty text and
path, no chunks), collecting the returned ids in call order. -/
def addSeq {α : Type} [LinearOrderedField α] (sq : α → α) (s : Store α)
    (disk : Disk α) : List (List α) → Except PyError (Store α × Disk α × List Nat)
  | [] => .ok (s, disk, [])
  | v :: vs =>
      match Store.add sq s disk (.one v) "" "" none with
      | .error e => .error e
      | .ok (s', d', i) =>
          match addSeq sq s' d' vs with
          | .error e => .error e
          | .ok (s'', d'', ids) => .ok (s'', d'', i :: ids)

/-- The cross-component id invariant: `next_id` agrees with the index
count and the metadata keys are exactly the stored ids `0 … count-1`. -/
def idInv {α : Type} (s : Store α) : Prop :=
  s.next_id = s.index.ntotal ∧ ∀ i, i ∈ metaIds s ↔ i < s.index.ntotal

/-- Result order stated over result records: ascending distance, distance
ties broken by ascending id. -/
def resLt {α : Type} [LinearOrderedField α] (a b : SearchResult α) : Prop :=
  a.distance < b.distance ∨ (a.distance = b.distance ∧ a.id < b.id)

/-! ### General lemmas about the embedded operations -/

theorem length_renormRow {α : Type} [LinearOrderedField α] (sq : α → α) (v : List α) :
    (renormRow sq v).length = v.length := by
  unfold renormRow; split <;> simp

theorem add_one_ok {α : Type} [LinearOrderedField α] (sq : α → α) (s : Store α)
    (disk : Disk α) (v : List α) (t a : String) (c : Option (List String))
    (hv : v.length = s.index.d) :
    Store.add sq s disk (.one v) t a c =
      .ok (⟨s.dimension, ⟨s.index.d, s.index.xb ++ [renormRow sq v]⟩,
            dictInsert s.metadata s.next_id ⟨t, a, c.getD []⟩, s.next_id + 1⟩,
           saveAll ⟨s.dimension, ⟨s.index.d, s.index.xb ++ [renormRow sq v]⟩,
            dictInsert s.metadata s.next_id ⟨t, a, c.getD []⟩, s.next_id + 1⟩ disk,
           s.next_id) := by
  simp [Store.add, atleast2d, normalize_L2, FaissIndex.add, length_renormRow, hv]

theorem add_one_err {α : Type} [LinearOrderedField α] (sq : α → α) (s : Store α)
    (disk : Disk α) (v : List α) (t a : String) (c : Option (List String))
    (hv : v.length ≠ s.index.d) :
    Store.add sq s disk (.one v) t a c = .error .assertionError := by
  simp [Store.add, atleast2d, normalize_L2, FaissIndex.add, length_renormRow, hv]

theorem addSeq_ids {α : Type} [LinearOrderedField α] (sq : α → α) (vs : List (List α)) :
    ∀ (s : Store α) (disk : Disk α), (∀ v ∈ vs, v.length = s.index.d) →
      ∃ s' d', addSeq sq s disk vs =
        .ok (s', d', (List.range vs.length).map (· + s.next_id)) := by
  induction vs with
  | nil => exact fun s disk _ => ⟨s, disk, by simp [addSeq]⟩
  | cons v vs ih =>
      intro s disk h
      have hv : v.length = s.index.d := h v (by simp)
      obtain ⟨s', d', hrec⟩ :=
        ih ⟨s.dimension, ⟨s.index.d, s.index.xb ++ [renormRow sq v]⟩,
            dictInsert s.metadata s.next_id ⟨"", "", []⟩, s.next_id + 1⟩
          (saveAll ⟨s.dimension, ⟨s.index.d, s.index.xb ++ [renormRow sq v]⟩,
            dictInsert s.metadata s.next_id ⟨"", "", []⟩, s.next_id + 1⟩ disk)
          (fun w hw => h w (List.mem_cons_of_mem _ hw))
      refine ⟨s', d', ?_⟩
      have hids : (List.range (vs.length + 1)).map (· + s.next_id)
          = s.next_id :: (List.range vs.length).map (· + (s.next_id + 1)) := by
        rw [List.range_succ_eq_map]
        simp only [List.map_cons, List.map_map, Nat.zero_add]
        exact congrArg _ (List.map_congr_left fun x _ => by simp [Function.comp]; omega)
      simp only [addSeq, add_one_ok sq s disk v "" "" none hv]
      simp only [Option.getD] at hrec ⊢
      rw [hrec]
      simp [hids]

theorem normSq_nonneg {α : Type} [LinearOrderedField α] (v : List α) :
    0 ≤ normSq v := by
  induction v with
  | nil => simp [normSq]
  | cons x l ih =>
      simp only [normSq, List.map_cons, List.sum_cons] at *
      exact add_nonneg (mul_self_nonneg x) ih

theorem normSq_eq_zero_iff {α : Type} [LinearOrderedField α] (v : List α) :
    normSq v = 0 ↔ ∀ x ∈ v, x = 0 := by
  induction v with
  | nil => simp [normSq]
  | cons x l ih =>
      simp only [normSq, List.map_cons, List.sum_cons, List.mem_cons] at *
      constructor
      · intro h
        have hS : (0 : α) ≤ (l.map fun y => y * y).sum := by
          simpa [normSq] using normSq_nonneg l
        have hx : x * x = 0 := by nlinarith [mul_self_nonneg x]
        have hl : (l.map fun y => y * y).sum = 0 := by nlinarith [mul_self_nonneg x]
        intro y hy
        rcases hy with rfl | hy
        · exact mul_self_eq_zero.mp hx
        · exact ih.mp hl y hy
      · intro h
        have hx : x = 0 := h x (Or.inl rfl)
        have hl : (l.map fun y => y * y).sum = 0 := ih.mpr fun y hy => h y (Or.inr hy)
        simp [hx, hl]

theorem normSq_map_div {α : Type} [LinearOrderedField α] (v : List α) (c : α) :
    normSq (v.map fun x => x / c) = normSq v / (c * c) := by
  induction v with
  | nil => simp [normSq]
  | cons x l ih =>
      simp only [normSq, List.map_cons, List.sum_cons] at *
      rw [div_mul_div_comm, ih, div_add_div_same]

theorem renormRow_zero {α : Type} [LinearOrderedField α] (sq : α → α)
    (v : List α) (h : ∀ x ∈ v, x = 0) : renormRow sq v = v := by
  simp [renormRow, (normSq_eq_zero_iff v).mpr h]

theorem normSq_renormRow_real (v : List ℝ) (h : normSq v ≠ 0) :
    Real.sqrt (normSq v) ≠ 0 ∧ normSq (renormRow Real.sqrt v) = 1 := by
  have hpos : 0 < normSq v := lt_of_le_of_ne (normSq_nonneg v) (Ne.symm h)
  have hs : 0 < Real.sqrt (normSq v) := Real.sqrt_pos.mpr hpos
  refine ⟨ne_of_gt hs, ?_⟩
  rw [renormRow, if_pos hpos, normSq_map_div,
    Real.mul_self_sqrt (le_of_lt hpos), div_self h]

theorem length_distTable {α : Type} [LinearOrderedField α] (q : List α) :
    ∀ (rows : List (List α)) (i : Nat), (distTable q rows i).length = rows.length
  | [], _ => rfl
  | r :: rs, i => by simp [distTable, length_distTable q rs (i + 1)]

theorem mem_distTable {α : Type} [LinearOrderedField α] (q : List α)
    (rows : List (List α)) :
    ∀ (i : Nat), ∀ p ∈ distTable q rows i,
      i ≤ p.2 ∧ p.2 < i + rows.length ∧ p.1 = sqDist q (rows.getD (p.2 - i) []) := by
  induction rows with
  | nil => intro i p hp; simp [distTable] at hp
  | cons r rs ih =>
      intro i p hp
      rcases List.mem_cons.mp hp with rfl | hp
      · refine ⟨le_refl _, by simp, by simp⟩
      · obtain ⟨h1, h2, h3⟩ := ih (i + 1) p hp
        refine ⟨by omega, by simp only [List.length_cons]; omega, ?_⟩
        rw [h3]
        have harith : p.2 - i = (p.2 - (i + 1)) + 1 := by omega
        rw [harith, List.getD_cons_succ]

theorem distTable_mem {α : Type} [LinearOrderedField α] (q : List α)
    (rows : List (List α)) :
    ∀ (i j : Nat), j < rows.length →
      (sqDist q (rows.getD j []), i + j) ∈ distTable q rows i := by
  induction rows with
  | nil => intro i j h; simp at h
  | cons r rs ih =>
      intro i j h
      cases j with
      | zero => simp [distTable]
      | succ j =>
          have hmem := ih (i + 1) j (by simpa using h)
          simp only [List.getD_cons_succ]
          have harith : i + (j + 1) = (i + 1) + j := by omega
          rw [harith]
          exact List.mem_cons_of_mem _ hmem

theorem map_snd_distTable {α : Type} [LinearOrderedField α] (q : List α) :
    ∀ (rows : List (List α)) (i : Nat),
      (distTable q rows i).map Prod.snd = List.range' i rows.length
  | [], _ => rfl
  | r :: rs, i => by
      simp [distTable, map_snd_distTable q rs (i + 1), List.range'_succ]

theorem faiss_search_spec {α : Type} [LinearOrderedField α] (idx : FaissIndex α)
    (q : List α) (k : Nat) (hq : q.length = idx.d) :
    ∃ pairs, idx.search q k = .ok pairs ∧
      pairs.length = min k idx.ntotal ∧
      (pairs.map Prod.snd).Nodup ∧
      pairs.Pairwise distLe ∧
      (∀ p ∈ pairs, p.2 < idx.ntotal ∧ p.1 = sqDist q (idx.xb.getD p.2 [])) ∧
      (∀ j, j < idx.ntotal → j ∉ pairs.map Prod.snd →
        ∀ p ∈ pairs, distLe p (sqDist q (idx.xb.getD j []), j)) := by
  have hperm := List.perm_insertionSort distLe (distTable q idx.xb 0)
  have hsorted := List.sorted_insertionSort distLe (distTable q idx.xb 0)
  refine ⟨(List.insertionSort distLe (distTable q idx.xb 0)).take k,
    by simp [FaissIndex.search, hq], ?_, ?_, ?_, ?_, ?_⟩
  · simp [List.length_take, hperm.length_eq, length_distTable, FaissIndex.ntotal]
  · have hnt : ((distTable q idx.xb 0).map Prod.snd).Nodup := by
      rw [map_snd_distTable]
      exact List.nodup_range' _ _
    have hnl : ((List.insertionSort distLe (distTable q idx.xb 0)).map Prod.snd).Nodup :=
      ((hperm.map Prod.snd).nodup_iff).mpr hnt
    rw [List.map_take]
    exact hnl.sublist (List.take_sublist _ _)
  · exact hsorted.sublist (List.take_sublist _ _)
  · intro p hp
    have hpT : p ∈ distTable q idx.xb 0 :=
      hperm.mem_iff.mp (List.take_subset _ _ hp)
    obtain ⟨_, h2, h3⟩ := mem_distTable q idx.xb 0 p hpT
    exact ⟨by simpa [FaissIndex.ntotal] using h2, by simpa using h3⟩
  · intro j hj hjnot p hp
    have hjT : (sqDist q (idx.xb.getD j []), j) ∈ distTable q idx.xb 0 := by
      have := distTable_mem q idx.xb 0 j (by simpa [FaissIndex.ntotal] using hj)
      simpa using this
    have hjL : (sqDist q (idx.xb.getD j []), j) ∈
        List.insertionSort distLe (distTable q idx.xb 0) :=
      hperm.mem_iff.mpr hjT
    rw [← List.take_append_drop k (List.insertionSort distLe (distTable q idx.xb 0))]
      at hjL
    rcases List.mem_append.mp hjL with hin | hdrop
    · exact absurd (List.mem_map.mpr ⟨_, hin, rfl⟩) hjnot
    · have hpw := hsorted
      rw [← List.take_append_drop k (List.insertionSort distLe (distTable q idx.xb 0))]
        at hpw
      exact ((List.pairwise_append.mp hpw).2.2) p hp _ hdrop

theorem store_search_spec {α : Type} [LinearOrderedField α] (sq : α → α)
    (s : Store α) (q : List α) (k : Nat) (hq : q.length = s.index.d) :
    ∃ res, Store.search sq s (.one q) k = .ok res ∧
      res.length = min k s.index.ntotal ∧
      (res.map fun r => r.id).Nodup ∧
      List.Sorted resLt res ∧
      (∀ r ∈ res, r.id < s.index.ntotal ∧
        r.distance = sqDist (renormRow sq q) (s.index.xb.getD r.id [])) ∧
      (∀ j, j < s.index.ntotal → j ∉ res.map (fun r => r.id) →
        ∀ r ∈ res, r.distance < sqDist (renormRow sq q) (s.index.xb.getD j []) ∨
          (r.distance = sqDist (renormRow sq q) (s.index.xb.getD j []) ∧ r.id < j)) := by
  by_cases hk : min k s.index.ntotal = 0
  · exact ⟨[], by simp [Store.search, hk], by simp [hk], by simp, by simp,
      by simp, by simp⟩
  · obtain ⟨pairs, hok, hlen, hnd, hpw, hmem, hmin⟩ :=
      faiss_search_spec s.index (renormRow sq q) (min k s.index.ntotal)
        (by rw [length_renormRow]; exact hq)
    have hsearch : Store.search sq s (.one q) k = .ok (pairs.map fun p =>
        let md := (dictGet s.metadata p.2).getD ⟨"", "", []⟩
        ⟨p.2, p.1, 1 / (1 + p.1), md.text, md.audio_path, md.chunks⟩) := by
      simp [Store.search, atleast2d, normalize_L2, hk, hok]
    have hids : ((pairs.map fun p =>
        let md := (dictGet s.metadata p.2).getD ⟨"", "", []⟩
        (⟨p.2, p.1, 1 / (1 + p.1), md.text, md.audio_path, md.chunks⟩ :
          SearchResult α)).map fun r => r.id) = pairs.map Prod.snd := by
      simp [List.map_map, Function.comp]
    refine ⟨_, hsearch, ?_, ?_, ?_, ?_, ?_⟩
    · simp only [List.length_map, hlen]
      omega
    · rw [hids]; exact hnd
    · have hsndne : pairs.Pairwise fun p p' => p.2 ≠ p'.2 :=
        List.pairwise_map.mp hnd
      have hstrict : pairs.Pairwise fun p p' =>
          p.1 < p'.1 ∨ (p.1 = p'.1 ∧ p.2 < p'.2) := by
        refine (hpw.and hsndne).imp ?_
        rintro p p' ⟨hle | ⟨heq, hle⟩, hne⟩
        · exact Or.inl hle
        · exact Or.inr ⟨heq, lt_of_le_of_ne hle hne⟩
      exact List.pairwise_map.mpr (hstrict.imp fun h => by
        simpa [resLt] using h)
    · intro r hr
      obtain ⟨p, hp, rfl⟩ := List.mem_map.mp hr
      obtain ⟨h1, h2⟩ := hmem p hp
      exact ⟨h1, h2⟩
    · intro j hj hjnot r hr
      obtain ⟨p, hp, rfl⟩ := List.mem_map.mp hr
      have hple := hmin j hj (by rwa [hids] at hjnot) p hp
      have hpne : p.2 ≠ j := by
        intro hcontra
        apply hjnot
        rw [hids]
        exact List.mem_map.mpr ⟨p, hp, hcontra⟩
      rcases hple with h | ⟨h1, h2⟩
      · exact Or.inl h
      · exact Or.inr ⟨h1, lt_of_le_of_ne h2 hpne⟩

theorem eq_of_map_eq_self {α : Type} (f : α → α) :
    ∀ l : List α, l.map f = l → ∀ x ∈ l, f x = x := by
  intro l
  induction l with
  | nil => simp
  | cons a l ih =>
      intro h x hx
      simp only [List.map_cons, List.cons.injEq] at h
      rcases List.mem_cons.mp hx with rfl | hx
      · exact h.1
      · exact ih h.2 x hx

/-! ### Claim theorems -/

/-- C3: persisting a store's state with `_save_index` and `_save_metadata`
and then constructing a fresh `FAISSVectorStore` from those files (with the
same requested dimension) reproduces the full pre-persist state: same
count, same recorded dimension, same stored normalized vectors, same
metadata, and the disk is not modified by the load. -/
theorem c3_persist_reload_roundtrip (s : Store ℝ) (d : Disk ℝ) :
    initStore s.dimension (saveAll s d) = .ok (s, saveAll s d) := by
  cases s; rfl

/-- C4 counterexample: the claim says a loaded index's declared dimension
must equal the requested dimension with `DimensionMismatch` on conflict.
The code performs no such check: loading an on-disk index of dimension 3
while requesting dimension 768 succeeds, yielding a store whose recorded
`dimension` (768) disagrees with its index's actual dimension (3). -/
theorem c4_counterexample :
    (3 : Nat) ≠ 768 ∧
    initStore (α := ℝ) 768 ⟨some ⟨3, [[0, 0, 0]]⟩, some (.valid ⟨1, []⟩)⟩ =
      .ok (⟨768, ⟨3, [[0, 0, 0]]⟩, [], 1⟩,
           ⟨some ⟨3, [[0, 0, 0]]⟩, some (.valid ⟨1, []⟩)⟩) :=
  ⟨by decide, rfl⟩

/-- C4 (amended): on startup, if the index file exists it is loaded and
the store is created with no dimension check whatsoever — the requested
dimension is recorded even when it conflicts with the file's declared
dimension, and no error is possible when the metadata document is valid;
if the file is absent, an empty index for the requested dimension is
created. -/
theorem c4_load_without_dimension_check (dim : Nat) (idx : FaissIndex ℝ)
    (doc : MetaDoc) (mf : Option MetaFile) :
    initStore dim ⟨some idx, some (.valid doc)⟩ =
      .ok (⟨dim, idx, doc.metadata, doc.next_id⟩, ⟨some idx, some (.valid doc)⟩) ∧
    initStore (α := ℝ) dim ⟨none, mf⟩ =
      .ok (⟨dim, ⟨dim, []⟩, [], 0⟩, ⟨none, some (.valid ⟨0, []⟩)⟩) :=
  ⟨rfl, rfl⟩

/-- C5 counterexample: the claim says a disagreement between the on-disk
index's count and the metadata document's `next_id` raises `CorruptState`
at startup.  The code compares nothing: an index holding 2 vectors next to
a metadata document with `next_id = 5` loads without any error. -/
theorem c5_counterexample :
    (⟨3, [[0, 0, 0], [0, 0, 0]]⟩ : FaissIndex ℝ).ntotal = 2 ∧ (2 : Nat) ≠ 5 ∧
    initStore (α := ℝ) 3 ⟨some ⟨3, [[0, 0, 0], [0, 0, 0]]⟩, some (.valid ⟨5, []⟩)⟩ =
      .ok (⟨3, ⟨3, [[0, 0, 0], [0, 0, 0]]⟩, [], 5⟩,
           ⟨some ⟨3, [[0, 0, 0], [0, 0, 0]]⟩, some (.valid ⟨5, []⟩)⟩) :=
  ⟨rfl, by decide, rfl⟩

/-- C5 (amended): at startup load time the only corrupt state that stops
the store is a metadata document that fails to parse, whose exception
propagates; a count / `next_id` disagreement is never detected, so the
store starts with silently divergent state (see the counterexample). -/
theorem c5_malformed_metadata_raises (dim : Nat) (idx : FaissIndex ℝ) :
    initStore dim ⟨some idx, some .malformed⟩ = .error .jsonDecodeError :=
  rfl

/-- C6: starting from a freshly created empty store (construction on an
empty disk), calling `add` `n` times in sequence, each with a single
correctly-dimensioned vector, succeeds and returns the ids
`0, 1, …, n-1` in call order, with no gaps and no repeats. -/
theorem c6_sequential_ids (dim : Nat) (vs : List (List ℝ))
    (h : ∀ v ∈ vs, v.length = dim) :
    initStore dim (⟨none, none⟩ : Disk ℝ) =
      .ok (⟨dim, ⟨dim, []⟩, [], 0⟩, ⟨none, some (.valid ⟨0, []⟩)⟩) ∧
    ∃ s' d', addSeq Real.sqrt ⟨dim, ⟨dim, []⟩, [], 0⟩ ⟨none, some (.valid ⟨0, []⟩)⟩ vs =
      .ok (s', d', List.range vs.length) := by
  refine ⟨rfl, ?_⟩
  obtain ⟨s', d', hs⟩ := addSeq_ids Real.sqrt vs ⟨dim, ⟨dim, []⟩, [], 0⟩
    ⟨none, some (.valid ⟨0, []⟩)⟩ h
  exact ⟨s', d', by simpa using hs⟩

/-- C6 witness: three adds of 2-dimensional vectors into a fresh
2-dimensional store yield exactly the ids `[0, 1, 2]`. -/
theorem c6_witness :
    (∀ v ∈ ([[0, 0], [0, 0], [0, 0]] : List (List ℝ)), v.length = 2) ∧
    (initStore 2 (⟨none, none⟩ : Disk ℝ) =
      .ok (⟨2, ⟨2, []⟩, [], 0⟩, ⟨none, some (.valid ⟨0, []⟩)⟩) ∧
     ∃ s' d', addSeq Real.sqrt ⟨2, ⟨2, []⟩, [], 0⟩ ⟨none, some (.valid ⟨0, []⟩)⟩
        [[0, 0], [0, 0], [0, 0]] = .ok (s', d', List.range 3)) := by
  have h : ∀ v ∈ ([[0, 0], [0, 0], [0, 0]] : List (List ℝ)), v.length = 2 := by
    intro v hv
    rcases List.mem_cons.mp hv with h | hv <;>
      [skip; rcases List.mem_cons.mp hv with h | hv] <;>
      [simp [h]; simp [h]; (rcases List.mem_cons.mp hv with h | hv <;> simp_all)]
  exact ⟨h, by simpa using c6_sequential_ids 2 [[0, 0], [0, 0], [0, 0]] h⟩

/-- C1 counterexample: the claim says every wrong-dimension vector makes
`search` fail.  But `search` clamps `k` to `ntotal` and returns `[]`
before any dimension check when the clamp is 0: on a freshly constructed
(empty) store of dimension 3, a query of length 2 returns `[]` with no
error instead of failing. -/
theorem c1_counterexample :
    initStore 3 (⟨none, none⟩ : Disk ℝ) =
      .ok (⟨3, ⟨3, []⟩, [], 0⟩, ⟨none, some (.valid ⟨0, []⟩)⟩) ∧
    ([1, 1] : List ℝ).length ≠ 3 ∧
    Store.search Real.sqrt ⟨3, ⟨3, []⟩, [], 0⟩ (.one [1, 1]) 5 = .ok [] :=
  ⟨rfl, by simp, rfl⟩

/-- C1 (amended): a wrong-dimension vector always makes `add` fail with
the underlying index's dimension assertion (never coerced), and makes
`search` fail the same way whenever the clamped `k` is nonzero (a nonempty
index and `k > 0`); on an empty index or with `k = 0`, `search` silently
returns `[]` instead (see the counterexample). -/
theorem c1_dimension_mismatch (s : Store ℝ) (disk : Disk ℝ) (v q : List ℝ)
    (t a : String) (c : Option (List String)) (k : Nat)
    (hv : v.length ≠ s.index.d) (hq : q.length ≠ s.index.d)
    (hk : min k s.index.ntotal ≠ 0) :
    Store.add Real.sqrt s disk (.one v) t a c = .error .assertionError ∧
    Store.search Real.sqrt s (.one q) k = .error .assertionError := by
  refine ⟨add_one_err Real.sqrt s disk v t a c hv, ?_⟩
  simp [Store.search, atleast2d, normalize_L2, hk, FaissIndex.search,
    length_renormRow, hq]

/-- C1 witness: on a store holding one 2-dimensional vector, adding or
searching a vector of length 1 surfaces the dimension error. -/
theorem c1_witness :
    (([1] : List ℝ).length ≠
      (⟨2, ⟨2, [[1, 0]]⟩, [(0, ⟨"a", "p", []⟩)], 1⟩ : Store ℝ).index.d) ∧
    (min 1 (⟨2, ⟨2, [[1, 0]]⟩, [(0, ⟨"a", "p", []⟩)], 1⟩ : Store ℝ).index.ntotal ≠ 0) ∧
    (Store.add Real.sqrt ⟨2, ⟨2, [[1, 0]]⟩, [(0, ⟨"a", "p", []⟩)], 1⟩
        ⟨none, none⟩ (.one [1]) "t" "p" none = .error .assertionError ∧
     Store.search Real.sqrt ⟨2, ⟨2, [[1, 0]]⟩, [(0, ⟨"a", "p", []⟩)], 1⟩
        (.one [1]) 1 = .error .assertionError) := by
  refine ⟨by simp, by simp [FaissIndex.ntotal], ?_⟩
  exact c1_dimension_mismatch ⟨2, ⟨2, [[1, 0]]⟩, [(0, ⟨"a", "p", []⟩)], 1⟩
    ⟨none, none⟩ [1] [1] "t" "p" none 1 (by simp) (by simp)
    (by simp [FaissIndex.ntotal])

/-- C2 counterexample: the claim quantifies over all inputs "including a
2-D embedding argument to add".  Passing a 2-row 2-D embedding to `add`
appends both rows to the index but records only one metadata id: after
the call the index holds ids {0, 1} while the metadata holds only {0}, so
the two id sets are not identical. -/
theorem c2_counterexample :
    Store.add Real.sqrt ⟨2, ⟨2, []⟩, [], 0⟩ ⟨none, some (.valid ⟨0, []⟩)⟩
        (.two [[0, 0], [0, 0]]) "t" "p" none =
      .ok (⟨2, ⟨2, [[0, 0], [0, 0]]⟩, [(0, ⟨"t", "p", []⟩)], 1⟩,
           ⟨some ⟨2, [[0, 0], [0, 0]]⟩, some (.valid ⟨1, [(0, ⟨"t", "p", []⟩)]⟩)⟩, 0) ∧
    1 ∈ indexIds (⟨2, ⟨2, [[0, 0], [0, 0]]⟩, [(0, ⟨"t", "p", []⟩)], 1⟩ : Store ℝ) ∧
    1 ∉ metaIds (⟨2, ⟨2, [[0, 0], [0, 0]]⟩, [(0, ⟨"t", "p", []⟩)], 1⟩ : Store ℝ) := by
  refine ⟨?_, by simp [indexIds, FaissIndex.ntotal], by simp [metaIds]⟩
  simp [Store.add, atleast2d, normalize_L2, renormRow, normSq,
    FaissIndex.add, dictInsert, saveAll]

/-- C2 (amended): the id-set identity does hold for construction from an
empty disk and for every `add` that passes a single 1-D vector of the
index's dimension: after each such completed operation the metadata ids
are exactly `{0, …, count-1}` and `next_id` equals the count.  An `add`
passed a multi-row 2-D embedding breaks the identity (see the
counterexample). -/
theorem c2_id_sets (dim : Nat) :
    (∀ (s : Store ℝ) (d : Disk ℝ),
        initStore dim ⟨none, none⟩ = .ok (s, d) → idInv s) ∧
    (∀ (s : Store ℝ) (disk : Disk ℝ) (v : List ℝ) (t a : String)
        (c : Option (List String)) (s' : Store ℝ) (d' : Disk ℝ) (i : Nat),
        v.length = s.index.d → idInv s →
        Store.add Real.sqrt s disk (.one v) t a c = .ok (s', d', i) → idInv s') := by
  constructor
  · intro s d h
    simp only [initStore, Except.ok.injEq, Prod.mk.injEq] at h
    obtain ⟨h1, _⟩ := h
    subst h1
    simp [idInv, metaIds, FaissIndex.ntotal]
  · intro s disk v t a c s' d' i hv hinv hadd
    rw [add_one_ok Real.sqrt s disk v t a c hv] at hadd
    simp only [Except.ok.injEq, Prod.mk.injEq] at hadd
    obtain ⟨h1, _⟩ := hadd
    subst h1
    obtain ⟨hn, hm⟩ := hinv
    have hfresh : ¬ ∃ p ∈ s.metadata, p.1 = s.next_id := by
      rintro ⟨p, hp, hpk⟩
      have : s.next_id ∈ metaIds s := List.mem_map.mpr ⟨p, hp, hpk⟩
      have := (hm s.next_id).mp this
      omega
    constructor
    · simp [FaissIndex.ntotal, hn]
    · intro j
      simp only [metaIds, dictInsert, if_neg hfresh, List.map_append,
        List.mem_append, List.map_cons, List.map_nil, List.mem_singleton,
        FaissIndex.ntotal, List.length_append, List.length_cons, List.length_nil]
      have := hm j
      simp only [metaIds, FaissIndex.ntotal] at this
      rw [this]
      simp only [FaissIndex.ntotal] at hn
      omega

/-- C2 witness: the invariant holds concretely after adding one 1-D
vector to a fresh store. -/
theorem c2_witness :
    (([0, 0] : List ℝ).length = (⟨2, ⟨2, []⟩, [], 0⟩ : Store ℝ).index.d) ∧
    idInv (⟨2, ⟨2, []⟩, [], 0⟩ : Store ℝ) ∧
    idInv (⟨2, ⟨2, [[0, 0]]⟩, [(0, ⟨"t", "p", []⟩)], 1⟩ : Store ℝ) := by
  refine ⟨by simp, by simp [idInv, metaIds, FaissIndex.ntotal], ?_⟩
  exact (c2_id_sets 2).2 ⟨2, ⟨2, []⟩, [], 0⟩ ⟨none, none⟩ [0, 0] "t" "p" none
    ⟨2, ⟨2, [[0, 0]]⟩, [(0, ⟨"t", "p", []⟩)], 1⟩
    ⟨some ⟨2, [[0, 0]]⟩, some (.valid ⟨1, [(0, ⟨"t", "p", []⟩)]⟩)⟩ 0
    (by simp) (by simp [idInv, metaIds, FaissIndex.ntotal])
    (by simp [Store.add, atleast2d, normalize_L2, renormRow, normSq,
      FaissIndex.add, dictInsert, saveAll])

/-- C9: a correctly-dimensioned `add` always succeeds and stores exactly
one new row, the `normalize_L2` image of the input.  For an all-zero
vector the positivity guard in `fvec_renorm_L2` makes normalization a
no-op — the zero vector is stored verbatim and the dividing branch (the
only source of a division by zero, i.e. of infinite or NaN components) is
never taken; for every nonzero vector the divisor `sqrt(‖v‖²)` is nonzero
and the stored row has unit Euclidean norm. -/
theorem c9_zero_vector_safe (s : Store ℝ) (disk : Disk ℝ) (v : List ℝ)
    (t a : String) (c : Option (List String)) (hv : v.length = s.index.d) :
    ∃ s' d', Store.add Real.sqrt s disk (.one v) t a c = .ok (s', d', s.next_id) ∧
      s'.index.xb = s.index.xb ++ [renormRow Real.sqrt v] ∧
      ((∀ x ∈ v, x = 0) → renormRow Real.sqrt v = v) ∧
      (¬ (∀ x ∈ v, x = 0) →
        Real.sqrt (normSq v) ≠ 0 ∧ normSq (renormRow Real.sqrt v) = 1) := by
  refine ⟨_, _, add_one_ok Real.sqrt s disk v t a c hv, rfl,
    renormRow_zero Real.sqrt v, ?_⟩
  intro hnz
  exact normSq_renormRow_real v fun h0 => hnz ((normSq_eq_zero_iff v).mp h0)

/-- C9 witness: adding the all-zero 2-dimensional vector to an empty
2-dimensional store. -/
theorem c9_witness :
    (([0, 0] : List ℝ).length = (⟨2, ⟨2, []⟩, [], 0⟩ : Store ℝ).index.d) ∧
    (∃ s' d', Store.add Real.sqrt ⟨2, ⟨2, []⟩, [], 0⟩ ⟨none, none⟩
        (.one [0, 0]) "t" "p" none = .ok (s', d', 0) ∧
      s'.index.xb = [] ++ [renormRow Real.sqrt [0, 0]] ∧
      ((∀ x ∈ ([0, 0] : List ℝ), x = 0) → renormRow Real.sqrt [0, 0] = [0, 0]) ∧
      (¬ (∀ x ∈ ([0, 0] : List ℝ), x = 0) →
        Real.sqrt (normSq ([0, 0] : List ℝ)) ≠ 0 ∧
        normSq (renormRow Real.sqrt ([0, 0] : List ℝ)) = 1)) :=
  ⟨by simp, c9_zero_vector_safe ⟨2, ⟨2, []⟩, [], 0⟩ ⟨none, none⟩ [0, 0]
    "t" "p" none (by simp)⟩

/-- C10 counterexample: the claim says the caller's input array is
unchanged after `add`/`search`.  But `reshape(1, -1)` on a contiguous 1-D
array returns a view and `faiss.normalize_L2` renormalizes in place
through it: after passing `[3, 4]` the caller's buffer holds
`[3/5, 4/5]`, not `[3, 4]`. -/
theorem c10_counterexample :
    callerBufferAfter Real.sqrt (NpArr.one [3, 4]) ≠ NpArr.one ([3, 4] : List ℝ) := by
  have h25 : normSq ([3, 4] : List ℝ) = 25 := by norm_num [normSq]
  have hsq : Real.sqrt 25 = 5 := by
    rw [show (25 : ℝ) = 5 ^ 2 by norm_num]
    exact Real.sqrt_sq (by norm_num)
  intro h
  simp only [callerBufferAfter, NpArr.one.injEq, renormRow, h25] at h
  rw [if_pos (show (0 : ℝ) < 25 by norm_num), hsq] at h
  simp only [List.map_cons, List.map_nil, List.cons.injEq] at h
  have h35 : (3 : ℝ) / 5 = 3 := h.1
  norm_num at h35

/-- C10 (amended): `add` and `search` do share the caller's array across
the API boundary — `faiss.normalize_L2` normalizes it in place.  The
buffer is unchanged only when the vector is all-zero (or already of unit
norm); whenever its squared norm is neither 0 nor 1 the caller's array
differs from what was passed in. -/
theorem c10_caller_buffer_mutated (v : List ℝ) :
    ((∀ x ∈ v, x = 0) → callerBufferAfter Real.sqrt (NpArr.one v) = NpArr.one v) ∧
    (normSq v ≠ 0 → normSq v ≠ 1 →
      callerBufferAfter Real.sqrt (NpArr.one v) ≠ NpArr.one v) := by
  constructor
  · intro h
    simp [callerBufferAfter, renormRow_zero Real.sqrt v h]
  · intro h0 h1 heq
    have hpos : 0 < normSq v := lt_of_le_of_ne (normSq_nonneg v) (Ne.symm h0)
    simp only [callerBufferAfter, NpArr.one.injEq, renormRow, if_pos hpos] at heq
    obtain ⟨x, hx, hxne⟩ : ∃ x ∈ v, x ≠ 0 := by
      by_contra hall
      push_neg at hall
      exact h0 ((normSq_eq_zero_iff v).mpr hall)
    have hdiv := eq_of_map_eq_self _ v heq x hx
    have hsne : Real.sqrt (normSq v) ≠ 0 := ne_of_gt (Real.sqrt_pos.mpr hpos)
    have hx1 : x = x * Real.sqrt (normSq v) := (div_eq_iff hsne).mp hdiv
    have hs1 : Real.sqrt (normSq v) = 1 :=
      mul_left_cancel₀ hxne (by rw [mul_one]; exact hx1.symm)
    have hone : normSq v = 1 := by
      have hmul := congrArg (fun y => y * y) hs1
      simpa [Real.mul_self_sqrt (le_of_lt hpos)] using hmul
    exact h1 hone

/-- C7: for every query of the index's dimension and every `k`, `search`
succeeds and returns exactly `min k total_count` results — when the count
is 0 that is the empty sequence rather than an error, and `k` larger than
the count is clamped rather than rejected. -/
theorem c7_k_clamping (s : Store ℝ) (q : List ℝ) (k : Nat)
    (hq : q.length = s.index.d) :
    ∃ res, Store.search Real.sqrt s (.one q) k = .ok res ∧
      res.length = min k s.index.ntotal := by
  obtain ⟨res, h1, h2, _⟩ := store_search_spec Real.sqrt s q k hq
  exact ⟨res, h1, h2⟩

/-- C7 witness: `k = 5` against a store holding a single vector returns
exactly one result. -/
theorem c7_witness :
    (([0, 1] : List ℝ).length =
      (⟨2, ⟨2, [[1, 0]]⟩, [(0, ⟨"a", "p", []⟩)], 1⟩ : Store ℝ).index.d) ∧
    (∃ res, Store.search Real.sqrt ⟨2, ⟨2, [[1, 0]]⟩, [(0, ⟨"a", "p", []⟩)], 1⟩
        (.one [0, 1]) 5 = .ok res ∧
      res.length =
        min 5 (⟨2, ⟨2, [[1, 0]]⟩, [(0, ⟨"a", "p", []⟩)], 1⟩ : Store ℝ).index.ntotal) :=
  ⟨by simp, c7_k_clamping ⟨2, ⟨2, [[1, 0]]⟩, [(0, ⟨"a", "p", []⟩)], 1⟩ [0, 1] 5
    (by simp)⟩

/-- C8: `search` returns results whose ids are distinct stored ids with
their true squared Euclidean distance from the normalized query, ordered
by strictly ascending `(distance, id)` — ascending distance, exact
distance ties broken by the lower id first — and they are the `min k
count` lexicographically smallest: every stored vector not returned is
`(distance, id)`-greater-or-equal (strictly, given distinct ids) than
every returned one. -/
theorem c8_search_ordering (s : Store ℝ) (q : List ℝ) (k : Nat)
    (hq : q.length = s.index.d) :
    ∃ res, Store.search Real.sqrt s (.one q) k = .ok res ∧
      res.length = min k s.index.ntotal ∧
      (res.map fun r => r.id).Nodup ∧
      List.Sorted resLt res ∧
      (∀ r ∈ res, r.id < s.index.ntotal ∧
        r.distance = sqDist (renormRow Real.sqrt q) (s.index.xb.getD r.id [])) ∧
      (∀ j, j < s.index.ntotal → j ∉ res.map (fun r => r.id) →
        ∀ r ∈ res,
          r.distance < sqDist (renormRow Real.sqrt q) (s.index.xb.getD j []) ∨
          (r.distance = sqDist (renormRow Real.sqrt q) (s.index.xb.getD j []) ∧
            r.id < j)) :=
  store_search_spec Real.sqrt s q k hq

/-- C8 witness: a two-vector store searched with `k = 2`. -/
theorem c8_witness :
    (([1, 0] : List ℝ).length =
      (⟨2, ⟨2, [[1, 0], [0, 1]]⟩, [], 2⟩ : Store ℝ).index.d) ∧
    (∃ res, Store.search Real.sqrt ⟨2, ⟨2, [[1, 0], [0, 1]]⟩, [], 2⟩
        (.one [1, 0]) 2 = .ok res ∧
      res.length =
        min 2 (⟨2, ⟨2, [[1, 0], [0, 1]]⟩, [], 2⟩ : Store ℝ).index.ntotal ∧
      (res.map fun r => r.id).Nodup ∧
      List.Sorted resLt res ∧
      (∀ r ∈ res, r.id < (⟨2, ⟨2, [[1, 0], [0, 1]]⟩, [], 2⟩ : Store ℝ).index.ntotal ∧
        r.distance = sqDist (renormRow Real.sqrt [1, 0])
          ((⟨2, ⟨2, [[1, 0], [0, 1]]⟩, [], 2⟩ : Store ℝ).index.xb.getD r.id [])) ∧
      (∀ j, j < (⟨2, ⟨2, [[1, 0], [0, 1]]⟩, [], 2⟩ : Store ℝ).index.ntotal →
        j ∉ res.map (fun r => r.id) →
        ∀ r ∈ res,
          r.distance < sqDist (renormRow Real.sqrt [1, 0])
            ((⟨2, ⟨2, [[1, 0], [0, 1]]⟩, [], 2⟩ : Store ℝ).index.xb.getD j []) ∨
          (r.distance = sqDist (renormRow Real.sqrt [1, 0])
            ((⟨2, ⟨2, [[1, 0], [0, 1]]⟩, [], 2⟩ : Store ℝ).index.xb.getD j []) ∧
            r.id < j))) :=
  ⟨by simp, c8_search_ordering ⟨2, ⟨2, [[1, 0], [0, 1]]⟩, [], 2⟩ [1, 0] 2 (by simp)⟩

/-- C10 witness: the vector `[3, 4]` has squared norm 25, and the
caller's buffer is indeed changed by the call. -/
theorem c10_witness :
    normSq ([3, 4] : List ℝ) ≠ 0 ∧ normSq ([3, 4] : List ℝ) ≠ 1 ∧
    callerBufferAfter Real.sqrt (NpArr.one [3, 4]) ≠ NpArr.one ([3, 4] : List ℝ) := by
  have h25 : normSq ([3, 4] : List ℝ) = 25 := by norm_num [normSq]
  exact ⟨by rw [h25]; norm_num, by rw [h25]; norm_num,
    (c10_caller_buffer_mutated [3, 4]).2 (by rw [h25]; norm_num)
      (by rw [h25]; norm_num)⟩

end VectorStore
